import Mathlib

/-!
Verification of the process-wide logging facility in `src/lib/base/logging.cpp`
(android-base logging). The C++ code is shallowly embedded: message buffers
are `List Char`, the `LogMessage` destructor becomes a pure function from a
record and the ambient threshold to the list of observable events (logger
calls and aborter calls), and the environment-override parser becomes a
function on token lists. Pieces of the repository that live in headers not
present under `src/` (the `WOULD_LOG` macro, `Split`/`StartsWith` from
strings.h, libc `basename`) are modelled from the specification and marked
as such in their doc comments.
-/

namespace AndroidLogging

/-- The seven-tier severity enumeration. The numbering 0..6 (VERBOSE lowest,
FATAL highest) is corroborated inside `src/lib/base/logging.cpp` by the
`static_assert`s `arraysize(log_characters) - 1 == FATAL + 1` (seven
characters "VDIWEFF") and the designated initializers of
`kLogSeverityToKernelLogLevel`. -/
inductive LogSeverity where
  | VERBOSE
  | DEBUG
  | INFO
  | WARNING
  | ERROR
  | FATAL_WITHOUT_ABORT
  | FATAL
  deriving DecidableEq, Repr

/-- Numeric value of each enumerator, as the C enum lays them out. -/
def LogSeverity.toNat : LogSeverity → Nat
  | .VERBOSE => 0
  | .DEBUG => 1
  | .INFO => 2
  | .WARNING => 3
  | .ERROR => 4
  | .FATAL_WITHOUT_ABORT => 5
  | .FATAL => 6

/-- The log-channel enumeration (`LogId`): DEFAULT, MAIN, SYSTEM, corroborated
by the `static_assert` on `kLogIdToAndroidLogId` (`SYSTEM + 1` entries). -/
inductive LogId where
  | DEFAULT
  | MAIN
  | SYSTEM
  deriving DecidableEq, Repr

/-- Modelled from the spec: the emission check `WOULD_LOG(severity)` used at the
top of `LogMessage::~LogMessage` (line 400). The macro itself is defined in the
header `android-base/logging.h`, which is not under `src/`; the spec states the
check as `severity >= threshold OR severity ∈ \x7bFATAL, FATAL_WITHOUT_ABORT\x7d`. -/
def wouldLog (severity threshold : LogSeverity) : Bool :=
  decide (threshold.toNat ≤ severity.toNat) || decide (severity = .FATAL)
    || decide (severity = .FATAL_WITHOUT_ABORT)

/-! ## Splitting and joining on a separator character

`splitOnChar` is the spec-level splitting rule ("split on line-break
characters; each resulting line, including an implicit trailing empty segment
if the text ends with a break, is dispatched"); it also models `Split` from
android-base strings.h (not under `src/`) when the separator is a space. -/

/-- Split a character list on a separator: one segment per separator-separated
piece, with a trailing empty segment when the list ends with the separator,
and `[[]]` on the empty list. The result is never empty, so the head/tail
access in the cons case is total. -/
def splitOnChar (sep : Char) : List Char → List (List Char)
  | [] => [[]]
  | c :: cs =>
    if c = sep then [] :: splitOnChar sep cs
    else (c :: (splitOnChar sep cs).headI) :: (splitOnChar sep cs).tail

/-- Join segments with a separator character between consecutive segments. -/
def joinWith (sep : Char) : List (List Char) → List Char
  | [] => []
  | [s] => s
  | s :: ss => s ++ sep :: joinWith sep ss

theorem splitOnChar_cons (sep c : Char) (cs : List Char) :
    splitOnChar sep (c :: cs) =
      if c = sep then [] :: splitOnChar sep cs
      else (c :: (splitOnChar sep cs).headI) :: (splitOnChar sep cs).tail := rfl

theorem splitOnChar_ne_nil (sep : Char) (cs : List Char) : splitOnChar sep cs ≠ [] := by
  cases cs with
  | nil => simp [splitOnChar]
  | cons c cs =>
    rw [splitOnChar_cons]
    split <;> simp

theorem joinWith_cons_cons (sep : Char) (s t : List Char) (ss : List (List Char)) :
    joinWith sep (s :: t :: ss) = s ++ sep :: joinWith sep (t :: ss) := rfl

theorem joinWith_cons_char (sep : Char) (c : Char) (s : List Char) (ss : List (List Char)) :
    joinWith sep ((c :: s) :: ss) = c :: joinWith sep (s :: ss) := by
  cases ss with
  | nil => rfl
  | cons t ts => rfl

/-- Joining the segments of a split with the separator reinserted reconstructs
the original list byte-for-byte. -/
theorem joinWith_splitOnChar (sep : Char) (cs : List Char) :
    joinWith sep (splitOnChar sep cs) = cs := by
  induction cs with
  | nil => rfl
  | cons c cs ih =>
    rw [splitOnChar_cons]
    by_cases h : c = sep
    · rw [if_pos h]
      cases hsp : splitOnChar sep cs with
      | nil => exact absurd hsp (splitOnChar_ne_nil sep cs)
      | cons s ss =>
        rw [joinWith_cons_cons, List.nil_append, h]
        rw [hsp] at ih
        rw [ih]
    · rw [if_neg h]
      cases hsp : splitOnChar sep cs with
      | nil => exact absurd hsp (splitOnChar_ne_nil sep cs)
      | cons s ss =>
        simp only [List.headI_cons, List.tail_cons]
        rw [joinWith_cons_char]
        rw [hsp] at ih
        rw [ih]

/-- No segment produced by the split contains the separator. -/
theorem not_mem_of_mem_splitOnChar (sep : Char) (cs : List Char) :
    ∀ s ∈ splitOnChar sep cs, sep ∉ s := by
  induction cs with
  | nil =>
    intro s hs
    simp only [splitOnChar, List.mem_singleton] at hs
    simp [hs]
  | cons c cs ih =>
    intro s hs
    rw [splitOnChar_cons] at hs
    by_cases h : c = sep
    · rw [if_pos h] at hs
      rcases List.mem_cons.mp hs with h1 | h2
      · simp [h1]
      · exact ih s h2
    · rw [if_neg h] at hs
      cases hsp : splitOnChar sep cs with
      | nil => exact absurd hsp (splitOnChar_ne_nil sep cs)
      | cons t ts =>
        rw [hsp] at hs
        simp only [List.headI_cons, List.tail_cons] at hs
        rcases List.mem_cons.mp hs with h1 | h2
        · subst h1
          intro hmem
          rcases List.mem_cons.mp hmem with h3 | h4
          · exact h h3.symm
          · exact ih t (hsp ▸ List.mem_cons_self t ts) h4
        · exact ih s (hsp ▸ List.mem_cons.mpr (Or.inr h2))

/-- A list free of the separator splits into the single segment that is the
list itself. -/
theorem splitOnChar_of_not_mem (sep : Char) (cs : List Char) (h : sep ∉ cs) :
    splitOnChar sep cs = [cs] := by
  induction cs with
  | nil => rfl
  | cons c cs ih =>
    rw [splitOnChar_cons]
    have hc : ¬ c = sep := fun hcs => h (hcs ▸ List.mem_cons_self c cs)
    rw [if_neg hc, ih (fun hm => h (List.mem_cons.mpr (Or.inr hm)))]
    simp [List.headI_cons]

/-- Splitting a list that ends with the separator yields the split of the
prefix followed by an empty trailing segment. -/
theorem splitOnChar_append_sep (sep : Char) (cs : List Char) :
    splitOnChar sep (cs ++ [sep]) = splitOnChar sep cs ++ [[]] := by
  induction cs with
  | nil => simp [splitOnChar]
  | cons c cs ih =>
    rw [List.cons_append, splitOnChar_cons, splitOnChar_cons]
    by_cases h : c = sep
    · rw [if_pos h, if_pos h, ih]
      rfl
    · rw [if_neg h, if_neg h, ih]
      cases hsp : splitOnChar sep cs with
      | nil => exact absurd hsp (splitOnChar_ne_nil sep cs)
      | cons t ts => simp [List.headI_cons]

/-- Splitting after a separator-free prefix followed by the separator peels off
that prefix as one segment. -/
theorem splitOnChar_append_cons (sep : Char) (as r : List Char) (h : sep ∉ as) :
    splitOnChar sep (as ++ sep :: r) = as :: splitOnChar sep r := by
  induction as with
  | nil => rw [List.nil_append, splitOnChar_cons, if_pos rfl]
  | cons a as ih =>
    have ha : ¬ a = sep := fun hax => h (hax ▸ List.mem_cons_self a as)
    rw [List.cons_append, splitOnChar_cons, if_neg ha,
      ih (fun hm => h (List.mem_cons.mpr (Or.inr hm)))]
    simp [List.headI_cons]

/-- Splitting the separator-joined image of separator-free segments recovers
the segments. -/
theorem splitOnChar_joinWith (sep : Char) (toks : List (List Char)) (hne : toks ≠ [])
    (hfree : ∀ t ∈ toks, sep ∉ t) :
    splitOnChar sep (joinWith sep toks) = toks := by
  induction toks with
  | nil => exact absurd rfl hne
  | cons t ts ih =>
    cases ts with
    | nil =>
      exact splitOnChar_of_not_mem sep t (hfree t (List.mem_cons_self t []))
    | cons u us =>
      rw [joinWith_cons_cons,
        splitOnChar_append_cons sep t _ (hfree t (List.mem_cons_self t (u :: us))),
        ih (by simp) (fun x hx => hfree x (List.mem_cons.mpr (Or.inr hx)))]

/-! ## The record and its destructor -/

/-- `GetFileBasename` (lines 325-339, non-Windows path): everything after the
last `'/'`, or the whole name when there is no slash (`strrchr`). -/
def getFileBasename (file : List Char) : List Char :=
  if '/' ∈ file then (file.reverse.takeWhile (fun c => c != '/')).reverse else file

/-- `LogMessageData` (lines 343-391): per-record metadata and the
accumulating text buffer. -/
structure LogMessageData where
  file : List Char
  line_number : Nat
  id : LogId
  severity : LogSeverity
  error : Int
  buffer : List Char
  deriving DecidableEq, Repr

/-- The `LogMessageData` constructor (lines 345-352): stores the basename of
the source file, the metadata and the error code, and starts with an empty
buffer. -/
def LogMessageData.make (file : List Char) (line : Nat) (id : LogId)
    (severity : LogSeverity) (error : Int) : LogMessageData :=
  ⟨getFileBasename file, line, id, severity, error, []⟩

/-- Streaming into `data_->GetBuffer()` appends text to the record's buffer. -/
def LogMessageData.appendText (d : LogMessageData) (s : List Char) : LogMessageData :=
  { d with buffer := d.buffer ++ s }

/-- An observable side effect of the destructor: one call to the active
logger (`Logger()(id, severity, tag, file, line, message)`) or one call to
the active aborter (`Aborter()(message)`). -/
inductive LogEvent where
  | logLine (id : LogId) (severity : LogSeverity) (tag : List Char) (file : List Char)
      (line : Nat) (message : List Char)
  | abortCall (message : List Char)
  deriving DecidableEq, Repr

/-- `LogMessage::LogLine` (lines 441-445): reads the program-invocation name
as the tag and invokes the active logger once with the six fields. -/
def LogLine (tag file : List Char) (line : Nat) (id : LogId) (severity : LogSeverity)
    (message : List Char) : LogEvent :=
  .logLine id severity tag file line message

/-- Lines 404-408 of the destructor: when the stored error code is not the
`-1` sentinel, `": " ++ strerror(error)` is appended to the buffered text
before the message is finalized. -/
def finalizeMessage (strerror : Int → List Char) (d : LogMessageData) : List Char :=
  if d.error ≠ -1 then d.buffer ++ ':' :: ' ' :: strerror d.error else d.buffer

/-- The per-line dispatch loop of the destructor (lines 418-427). At the call
site `msg += '\n'` has already run, so the input ends with a break; each
iteration finds the next `'\n'` (index `nl`), emits the slice `[i, nl)` as one
line and resumes at `nl + 1`, ending when `i` reaches `msg.size()`. The
recursion walks the same slices one character at a time; for an input with
trailing characters after the last break (unreachable at the call site, where
`find` would have no `'\n'` to return) it emits them as a final segment. -/
def loopSegments : List Char → List (List Char)
  | [] => []
  | c :: cs =>
    if c = '\n' then [] :: loopSegments cs
    else (c :: (loopSegments cs).headI) :: (loopSegments cs).tail

/-- Lines 413-427: the single-call fast path when the finalized message
contains no `'\n'` (`msg.find('\n') == std::string::npos`), otherwise the
appended break followed by the dispatch loop. -/
def dtorSegments (msg : List Char) : List (List Char) :=
  if '\n' ∈ msg then loopSegments (msg ++ ['\n']) else [msg]

/-- The message handed to the aborter at line 433: in the multi-line branch
the destructor has executed `msg += '\n'` (line 417) and undoes only the NUL
terminators (line 425), so the appended trailing break is still present. -/
def aborterMessage (msg : List Char) : List Char :=
  if '\n' ∈ msg then msg ++ ['\n'] else msg

/-- `LogMessage::~LogMessage` (lines 398-435) as the list of observable
events: nothing when the severity check fails (lines 400-402); otherwise one
logger call per dispatched line, followed, exactly when the severity is
FATAL, by one aborter call (lines 431-434). `threshold` is
`gMinimumLogSeverity`, `strerror` the platform error-description lookup and
`tag` the cached program-invocation name read by `LogLine`. -/
def logMessageDtor (threshold : LogSeverity) (strerror : Int → List Char)
    (tag : List Char) (d : LogMessageData) : List LogEvent :=
  if wouldLog d.severity threshold = false then []
  else
    (dtorSegments (finalizeMessage strerror d)).map
        (fun s => LogLine tag d.file d.line_number d.id d.severity s)
      ++ (if d.severity = .FATAL
            then [.abortCall (aborterMessage (finalizeMessage strerror d))] else [])

/-- The messages of the logger calls in an event list, in order. -/
def loggerMessages (evs : List LogEvent) : List (List Char) :=
  evs.filterMap fun e =>
    match e with
    | .logLine _ _ _ _ _ m => some m
    | .abortCall _ => none

/-- The messages of the aborter calls in an event list, in order. -/
def abortMessages (evs : List LogEvent) : List (List Char) :=
  evs.filterMap fun e =>
    match e with
    | .logLine _ _ _ _ _ _ => none
    | .abortCall m => some m

/-- Whether an event is a logger call. -/
def isLogLine : LogEvent → Bool
  | .logLine _ _ _ _ _ _ => true
  | .abortCall _ => false

/-! ## Severity threshold accessors and scoped overrides -/

/-- `SetMinimumLogSeverity` (lines 451-455) over explicit state: returns the
old threshold together with the updated global. -/
def SetMinimumLogSeverity (new_severity g : LogSeverity) : LogSeverity × LogSeverity :=
  (g, new_severity)

/-- A `ScopedLogSeverity` object: its only member is the saved `old_`
threshold. -/
structure ScopedLogSeverity where
  old : LogSeverity
  deriving DecidableEq, Repr

/-- The `ScopedLogSeverity` constructor (lines 457-459): `old_ =
SetMinimumLogSeverity(new_severity)`. Returns the object and the updated
global threshold. -/
def ScopedLogSeverity.enter (new_severity g : LogSeverity) :
    ScopedLogSeverity × LogSeverity :=
  (⟨(SetMinimumLogSeverity new_severity g).1⟩, (SetMinimumLogSeverity new_severity g).2)

/-- The `ScopedLogSeverity` destructor (lines 461-463):
`SetMinimumLogSeverity(old_)`. Returns the updated global threshold. -/
def ScopedLogSeverity.exitScope (s : ScopedLogSeverity) (g : LogSeverity) : LogSeverity :=
  (SetMinimumLogSeverity s.old g).2

/-! ## The environment-override parser (`InitLogging`) -/

/-- The switch at lines 284-308 mapping the third character of a token to a
severity; `none` means the switch falls through to the fatal diagnostic at
line 310. Both `'f'` and `'s'` map to FATAL_WITHOUT_ABORT. -/
def specSeverity (c : Char) : Option LogSeverity :=
  if c = 'v' then some .VERBOSE
  else if c = 'd' then some .DEBUG
  else if c = 'i' then some .INFO
  else if c = 'w' then some .WARNING
  else if c = 'e' then some .ERROR
  else if c = 'f' then some .FATAL_WITHOUT_ABORT
  else if c = 's' then some .FATAL_WITHOUT_ABORT
  else none

/-- The guard at line 283 plus the switch: a token participates only when it
has exactly three characters and starts with `*:` (`spec.size() == 3 &&
StartsWith(spec, "*:")`; `StartsWith` lives in strings.h outside `src/` and
is modelled by the literal two-character prefix comparison). -/
def applySpec (spec : List Char) : Option LogSeverity :=
  match spec with
  | [c1, c2, c3] => if c1 = '*' ∧ c2 = ':' then specSeverity c3 else none
  | _ => none

/-- Outcome of the token loop (lines 280-312): either every token was valid
and the loop ran to completion with the resulting threshold, or it reached a
malformed token and dispatches the fatal diagnostic; `threshold` in the
second case is the global value current at that moment. -/
inductive ParseResult where
  | ok (threshold : LogSeverity)
  | fatalError (badSpec : List Char) (threshold : LogSeverity)
  deriving DecidableEq, Repr

/-- The token loop of `InitLogging` (lines 280-312): each valid token
immediately overwrites `gMinimumLogSeverity`; the first malformed token stops
the loop with the fatal diagnostic (whose dispatch aborts the process). -/
def parseTags : List (List Char) → LogSeverity → ParseResult
  | [], g => .ok g
  | spec :: rest, g =>
    match applySpec spec with
    | some sev => parseTags rest sev
    | none => .fatalError spec g

/-- Modelled from the spec: `Split(tags, " ")` from android-base strings.h,
which is not under `src/`; the spec describes the override string as
space-separated tokens. -/
def Split (tags : List Char) : List (List Char) := splitOnChar ' ' tags

/-- The environment-override parsing section of `InitLogging`
(lines 274-312). -/
def parseEnvTags (tags : List Char) (g : LogSeverity) : ParseResult :=
  parseTags (Split tags) g

/-- The text of the fatal diagnostic at lines 310-311, naming the bad token
and the whole override string. -/
def unsupportedSpecMsg (spec tags : List Char) : List Char :=
  ("unsupported '").toList ++ spec ++ ("' in ANDROID_LOG_TAGS (").toList ++ tags
    ++ (")").toList

/-- The `LOG(FATAL)` record built at lines 310-311: a `LogMessage` on the
DEFAULT channel at FATAL severity with the `-1` no-error sentinel, in this
source file. -/
def fatalConfigRecord (spec tags : List Char) : LogMessageData :=
  { file := ("logging.cpp").toList
    line_number := 310
    id := .DEFAULT
    severity := .FATAL
    error := -1
    buffer := unsupportedSpecMsg spec tags }

/-- The process-wide mutable state read and written by `InitLogging`:
`gInitialized`, the cached program-invocation name, `gMinimumLogSeverity`
and the active logger/aborter callbacks (of caller-chosen types `F`, `G`). -/
structure LoggingState (F G : Type) where
  initDone : Bool
  progName : List Char
  threshold : LogSeverity
  logger : F
  aborter : G

/-- Modelled from the spec: libc `basename(3)` applied to `argv[0]`
("platform basename rules" — basename is not part of `src/`); modelled as
the component after the last slash. -/
def basename (p : List Char) : List Char := getFileBasename p

/-- `InitLogging` (lines 256-313) over explicit state. `argv0` is `argv[0]`
(`none` for a null `argv`), `tags` the value of `ANDROID_LOG_TAGS` (`none`
when unset), `se` the platform strerror used when the fatal diagnostic is
dispatched. Returns the new state and the events of the fatal-diagnostic
path (empty otherwise). The logger/aborter swap (lines 257-258) happens
before the `gInitialized` check (line 260); the name stash and the
environment parse run only on the first call. -/
def InitLogging {F G : Type} (argv0 : Option (List Char)) (tags : Option (List Char))
    (logger : F) (aborter : G) (se : Int → List Char) (st : LoggingState F G) :
    LoggingState F G × List LogEvent :=
  let st1 := { st with logger := logger, aborter := aborter }
  if st1.initDone then (st1, [])
  else
    let st2 := { st1 with initDone := true }
    let st3 :=
      match argv0 with
      | some a => { st2 with progName := basename a }
      | none => st2
    match tags with
    | none => (st3, [])
    | some tg =>
      match parseEnvTags tg st3.threshold with
      | .ok g => ({ st3 with threshold := g }, [])
      | .fatalError spec g =>
        ({ st3 with threshold := g },
         logMessageDtor g se st3.progName (fatalConfigRecord spec tg))

/-! ## The kernel-log shim (`KernelLogger`) -/

/-- The severity → printk level table at lines 152-161. -/
def kLogSeverityToKernelLogLevel : LogSeverity → Nat
  | .VERBOSE => 7
  | .DEBUG => 7
  | .INFO => 6
  | .WARNING => 4
  | .ERROR => 3
  | .FATAL_WITHOUT_ABORT => 2
  | .FATAL => 2

/-- Decimal digits of a number, as printf `%d`/`%zu` renders it. -/
def natDigits (n : Nat) : List Char := Nat.toDigits 10 n

/-- The formatted line `"<%d>%s: %s\n"` of the first `snprintf` (line 175). -/
def kernelFormat (level : Nat) (tag msg : List Char) : List Char :=
  ['<'] ++ natDigits level ++ ['>'] ++ tag ++ [':', ' '] ++ msg ++ ['\n']

/-- The replacement notice `"<%d>%s: %zu-byte message too long for printk\n"`
of the second `snprintf` (lines 177-178), stating the original size. -/
def kernelTooLong (level : Nat) (tag : List Char) (size : Nat) : List Char :=
  ['<'] ++ natDigits level ++ ['>'] ++ tag ++ [':', ' '] ++ natDigits size
    ++ ("-byte message too long for printk\n").toList

/-- `snprintf` into the 1024-byte `buf`: the buffer receives at most 1023
characters plus a NUL terminator, while the *return value* is the length the
full formatted string would have had. -/
def snprintfBuf (s : List Char) : List Char := s.take 1023 ++ [Char.ofNat 0]

/-- `KernelLogger` (lines 149-185): formats the line, substitutes the
too-long notice when the returned length exceeds `sizeof(buf)` (1024), then
hands `buf` with `iov_len = size` to `writev`. The result is the pair of the
in-buffer bytes covered by the write and the `iov_len` used; note the code
reuses the returned (untruncated) length of the second `snprintf` as
`iov_len`. The `/dev/kmsg` descriptor is an external collaborator, assumed
open here. -/
def KernelLogger (severity : LogSeverity) (tag msg : List Char) : List Char × Nat :=
  let level := kLogSeverityToKernelLogLevel severity
  let size := (kernelFormat level tag msg).length
  if 1024 < size then
    ((snprintfBuf (kernelTooLong level tag size)).take (kernelTooLong level tag size).length,
     (kernelTooLong level tag size).length)
  else
    ((snprintfBuf (kernelFormat level tag msg)).take size, size)

/-! ## Bridge lemmas: the destructor's dispatch loop realizes the spec-level
split -/

/-- The dispatch loop applied to a message with the break appended (exactly
how the destructor calls it) produces the break-split of the original
message. -/
theorem loopSegments_append_break (cs : List Char) :
    loopSegments (cs ++ ['\n']) = splitOnChar '\n' cs := by
  induction cs with
  | nil => simp [loopSegments, splitOnChar]
  | cons c cs ih =>
    rw [List.cons_append]
    by_cases h : c = '\n'
    · simp only [loopSegments, splitOnChar, if_pos h, ih]
    · simp only [loopSegments, splitOnChar, if_neg h, ih]

/-- The destructor's line segments are exactly the break-split of the
finalized message, in both the single-line and the multi-line branch. -/
theorem dtorSegments_eq_splitOnChar (msg : List Char) :
    dtorSegments msg = splitOnChar '\n' msg := by
  unfold dtorSegments
  by_cases h : '\n' ∈ msg
  · rw [if_pos h, loopSegments_append_break]
  · rw [if_neg h, splitOnChar_of_not_mem _ _ h]

theorem loggerMessages_map_append (tag file : List Char) (ln : Nat) (id : LogId)
    (sev : LogSeverity) (segs : List (List Char)) (rest : List LogEvent) :
    loggerMessages (segs.map (fun s => LogLine tag file ln id sev s) ++ rest)
      = segs ++ loggerMessages rest := by
  induction segs with
  | nil => rfl
  | cons s ss ih =>
    simp only [loggerMessages, LogLine, List.map_cons, List.cons_append,
      List.filterMap_cons] at ih ⊢
    rw [ih]

theorem abortMessages_map_append (tag file : List Char) (ln : Nat) (id : LogId)
    (sev : LogSeverity) (segs : List (List Char)) (rest : List LogEvent) :
    abortMessages (segs.map (fun s => LogLine tag file ln id sev s) ++ rest)
      = abortMessages rest := by
  induction segs with
  | nil => rfl
  | cons s ss ih =>
    simp only [abortMessages, LogLine, List.map_cons, List.cons_append,
      List.filterMap_cons] at ih ⊢
    rw [ih]

/-- Both fatal tiers pass the emission check for every threshold. -/
theorem wouldLog_fatal_tiers (t : LogSeverity) :
    wouldLog .FATAL t = true ∧ wouldLog .FATAL_WITHOUT_ABORT t = true := by
  cases t <;> exact ⟨rfl, rfl⟩

/-- When the record passes the emission check, the logger receives exactly the
break-split of the finalized message. -/
theorem loggerMessages_logMessageDtor (t : LogSeverity) (se : Int → List Char)
    (tag : List Char) (d : LogMessageData) (hpass : wouldLog d.severity t = true) :
    loggerMessages (logMessageDtor t se tag d)
      = splitOnChar '\n' (finalizeMessage se d) := by
  unfold logMessageDtor
  rw [hpass]
  simp only [Bool.true_eq_false, if_false]
  rw [loggerMessages_map_append, dtorSegments_eq_splitOnChar]
  by_cases hf : d.severity = .FATAL
  · rw [if_pos hf]
    simp [loggerMessages]
  · rw [if_neg hf]
    simp [loggerMessages]

/-- When the record passes the emission check, the aborter is called exactly
once for FATAL severity (with the destructor's aborter message) and never
otherwise. -/
theorem abortMessages_logMessageDtor (t : LogSeverity) (se : Int → List Char)
    (tag : List Char) (d : LogMessageData) (hpass : wouldLog d.severity t = true) :
    abortMessages (logMessageDtor t se tag d)
      = if d.severity = .FATAL
          then [aborterMessage (finalizeMessage se d)] else [] := by
  unfold logMessageDtor
  rw [hpass]
  simp only [Bool.true_eq_false, if_false]
  rw [abortMessages_map_append]
  by_cases hf : d.severity = .FATAL
  · rw [if_pos hf, if_pos hf]
    simp [abortMessages]
  · rw [if_neg hf, if_neg hf]
    simp [abortMessages]

/-! ## Parser lemmas -/

theorem parseTags_cons (t : List Char) (ts : List (List Char)) (g : LogSeverity) :
    parseTags (t :: ts) g =
      match applySpec t with
      | some sev => parseTags ts sev
      | none => .fatalError t g := rfl

/-- A run of valid tokens drives the loop to completion, each one overwriting
the threshold, so the result is the left fold of the token severities. -/
theorem parseTags_all_valid (toks : List (List Char)) (g : LogSeverity)
    (h : ∀ tok ∈ toks, (applySpec tok).isSome = true) :
    parseTags toks g
      = .ok (toks.foldl (fun acc tok => (applySpec tok).getD acc) g) := by
  induction toks generalizing g with
  | nil => rfl
  | cons t ts ih =>
    have ht := h t (List.mem_cons_self t ts)
    cases hsp : applySpec t with
    | none => rw [hsp] at ht; simp at ht
    | some sev =>
      rw [parseTags_cons, hsp, List.foldl_cons, hsp]
      exact ih sev (fun x hx => h x (List.mem_cons.mpr (Or.inr hx)))

/-- On an all-valid token list the left fold lands on the severity of the last
token. -/
theorem foldl_applySpec_last (toks : List (List Char)) (g : LogSeverity)
    (l : List Char) (sev : LogSeverity)
    (hlast : toks.getLast? = some l) (hl : applySpec l = some sev) :
    toks.foldl (fun acc tok => (applySpec tok).getD acc) g = sev := by
  induction toks generalizing g with
  | nil => simp at hlast
  | cons t ts ih =>
    cases ts with
    | nil =>
      simp only [List.getLast?_singleton, Option.some.injEq] at hlast
      subst hlast
      simp [hl]
    | cons u us =>
      rw [List.getLast?_cons_cons] at hlast
      rw [List.foldl_cons]
      exact ih _ hlast

/-- A malformed token stops the loop with the fatal diagnostic; the threshold
carried by the diagnostic is the fold of the valid tokens already applied. -/
theorem parseTags_append_invalid (vts : List (List Char)) (bad : List Char)
    (rest : List (List Char)) (g : LogSeverity)
    (hv : ∀ tok ∈ vts, (applySpec tok).isSome = true) (hbad : applySpec bad = none) :
    parseTags (vts ++ bad :: rest) g
      = .fatalError bad (vts.foldl (fun acc tok => (applySpec tok).getD acc) g) := by
  induction vts generalizing g with
  | nil =>
    rw [List.nil_append, parseTags_cons, hbad]
    rfl
  | cons t ts ih =>
    have ht := hv t (List.mem_cons_self t ts)
    cases hsp : applySpec t with
    | none => rw [hsp] at ht; simp at ht
    | some sev =>
      rw [List.cons_append, parseTags_cons, hsp, List.foldl_cons, hsp]
      exact ih _ (fun x hx => hv x (List.mem_cons.mpr (Or.inr hx)))

/-! ## Claim theorems -/

/-- Claim C1: destroying an emitting record dispatches exactly one logger call
with the unmodified message when the finalized message has no breaks; with
breaks, one call per break-separated segment (with a trailing empty segment
when the message ends with a break), no dispatched message contains a break,
and rejoining the dispatched messages with breaks reinserted reconstructs the
message byte-for-byte. -/
theorem c1_dispatch_line_splitting (t : LogSeverity) (se : Int → List Char)
    (tag : List Char) (d : LogMessageData) (hpass : wouldLog d.severity t = true) :
    loggerMessages (logMessageDtor t se tag d) = splitOnChar '\n' (finalizeMessage se d) ∧
    ('\n' ∉ finalizeMessage se d →
      loggerMessages (logMessageDtor t se tag d) = [finalizeMessage se d]) ∧
    (∀ m ∈ loggerMessages (logMessageDtor t se tag d), '\n' ∉ m) ∧
    joinWith '\n' (loggerMessages (logMessageDtor t se tag d)) = finalizeMessage se d ∧
    (∀ m', finalizeMessage se d = m' ++ ['\n'] →
      (loggerMessages (logMessageDtor t se tag d)).getLast? = some []) := by
  have hmain := loggerMessages_logMessageDtor t se tag d hpass
  refine ⟨hmain, ?_, ?_, ?_, ?_⟩
  · intro hno
    rw [hmain, splitOnChar_of_not_mem _ _ hno]
  · intro m hm
    rw [hmain] at hm
    exact not_mem_of_mem_splitOnChar _ _ m hm
  · rw [hmain, joinWith_splitOnChar]
  · intro m' hm'
    rw [hmain, hm', splitOnChar_append_sep]
    exact List.getLast?_concat _

theorem c1_dispatch_line_splitting_witness :
    wouldLog (LogMessageData.mk ['f'] 1 .DEFAULT .INFO (-1) ['a', '\n', 'b']).severity
        .INFO = true ∧
    loggerMessages (logMessageDtor .INFO (fun _ => []) []
        (LogMessageData.mk ['f'] 1 .DEFAULT .INFO (-1) ['a', '\n', 'b']))
      = [['a'], ['b']] := by
  refine ⟨by decide, ?_⟩
  rw [(c1_dispatch_line_splitting .INFO (fun _ => []) []
    (LogMessageData.mk ['f'] 1 .DEFAULT .INFO (-1) ['a', '\n', 'b']) (by decide)).1]
  decide

/-- Claim C2: the emission check passes iff the severity is at least the
threshold or is one of the two fatal tiers; in particular both fatal tiers
pass for every threshold, FATAL included. -/
theorem c2_should_emit_iff :
    (∀ s t : LogSeverity, wouldLog s t = true ↔
      (t.toNat ≤ s.toNat ∨ s = .FATAL ∨ s = .FATAL_WITHOUT_ABORT)) ∧
    (∀ t : LogSeverity,
      wouldLog .FATAL t = true ∧ wouldLog .FATAL_WITHOUT_ABORT t = true) := by
  constructor
  · intro s t
    cases s <;> cases t <;> decide
  · exact wouldLog_fatal_tiers

/-- Claim C3 counterexample: for a FATAL record whose message contains a
break, the aborter receives the finalized message with the implicit trailing
break still appended (`msg += '\n'` at line 417 is never undone), not the
finalized text without it as the claim requires. -/
theorem c3_aborter_trailing_break_cex :
    abortMessages (logMessageDtor .INFO (fun _ => []) []
        (LogMessageData.mk ['f'] 1 .DEFAULT .FATAL (-1) ['a', '\n', 'b']))
      = [['a', '\n', 'b', '\n']] ∧
    finalizeMessage (fun _ => [])
        (LogMessageData.mk ['f'] 1 .DEFAULT .FATAL (-1) ['a', '\n', 'b'])
      = ['a', '\n', 'b'] ∧
    (['a', '\n', 'b', '\n'] : List Char) ≠ ['a', '\n', 'b'] := by
  decide

/-- Claim C3 (amended): for every FATAL record the aborter is invoked exactly
once, strictly after every line has been passed to the logger, with the full
unsplit finalized message (error description included); when the message
contains breaks, the implicit trailing break appended for splitting is
included in what the aborter receives. -/
theorem c3_fatal_abort_after_lines (t : LogSeverity) (se : Int → List Char)
    (tag : List Char) (d : LogMessageData) (hfatal : d.severity = .FATAL) :
    abortMessages (logMessageDtor t se tag d)
      = [aborterMessage (finalizeMessage se d)] ∧
    (logMessageDtor t se tag d).getLast?
      = some (.abortCall (aborterMessage (finalizeMessage se d))) ∧
    (∀ e ∈ (logMessageDtor t se tag d).dropLast, isLogLine e = true) ∧
    loggerMessages (logMessageDtor t se tag d)
      = splitOnChar '\n' (finalizeMessage se d) ∧
    ('\n' ∉ finalizeMessage se d →
      aborterMessage (finalizeMessage se d) = finalizeMessage se d) ∧
    ('\n' ∈ finalizeMessage se d →
      aborterMessage (finalizeMessage se d) = finalizeMessage se d ++ ['\n']) := by
  have hpass : wouldLog d.severity t = true := by
    rw [hfatal]
    exact (wouldLog_fatal_tiers t).1
  have hshape : logMessageDtor t se tag d
      = (dtorSegments (finalizeMessage se d)).map
          (fun s => LogLine tag d.file d.line_number d.id d.severity s)
        ++ [.abortCall (aborterMessage (finalizeMessage se d))] := by
    unfold logMessageDtor
    rw [hpass]
    simp only [Bool.true_eq_false, if_false]
    rw [if_pos hfatal]
  refine ⟨?_, ?_, ?_, loggerMessages_logMessageDtor t se tag d hpass, ?_, ?_⟩
  · rw [abortMessages_logMessageDtor t se tag d hpass, if_pos hfatal]
  · rw [hshape]
    exact List.getLast?_concat _
  · intro e he
    rw [hshape, List.dropLast_concat] at he
    obtain ⟨s, _, hes⟩ := List.mem_map.mp he
    rw [← hes]
    rfl
  · intro hno
    unfold aborterMessage
    rw [if_neg hno]
  · intro hyes
    unfold aborterMessage
    rw [if_pos hyes]

theorem c3_fatal_abort_after_lines_witness :
    abortMessages (logMessageDtor .INFO (fun _ => ['E']) []
        (LogMessageData.mk ['f'] 1 .DEFAULT .FATAL 0 ['a']))
      = [['a', ':', ' ', 'E']] := by
  rw [(c3_fatal_abort_after_lines .INFO (fun _ => ['E']) []
    (LogMessageData.mk ['f'] 1 .DEFAULT .FATAL 0 ['a']) rfl).1]
  decide

/-- Claim C4: a FATAL_WITHOUT_ABORT record is always emitted — the logger is
invoked normally whatever the threshold — and the aborter is never invoked;
only the severity decides this. -/
theorem c4_fatal_without_abort_never_aborts (t : LogSeverity) (se : Int → List Char)
    (tag file : List Char) (ln : Nat) (id : LogId) (err : Int) (buf : List Char) :
    abortMessages (logMessageDtor t se tag
        (LogMessageData.mk file ln id .FATAL_WITHOUT_ABORT err buf)) = [] ∧
    loggerMessages (logMessageDtor t se tag
        (LogMessageData.mk file ln id .FATAL_WITHOUT_ABORT err buf))
      = splitOnChar '\n'
          (finalizeMessage se (LogMessageData.mk file ln id .FATAL_WITHOUT_ABORT err buf)) ∧
    logMessageDtor t se tag (LogMessageData.mk file ln id .FATAL_WITHOUT_ABORT err buf) ≠ [] ∧
    (∀ e ∈ logMessageDtor t se tag (LogMessageData.mk file ln id .FATAL_WITHOUT_ABORT err buf),
      isLogLine e = true) := by
  have hpass : wouldLog (LogMessageData.mk file ln id .FATAL_WITHOUT_ABORT err buf).severity t
      = true := (wouldLog_fatal_tiers t).2
  have hnf : (LogMessageData.mk file ln id .FATAL_WITHOUT_ABORT err buf).severity ≠ .FATAL :=
    fun h => LogSeverity.noConfusion h
  have hshape : logMessageDtor t se tag (LogMessageData.mk file ln id .FATAL_WITHOUT_ABORT err buf)
      = (dtorSegments (finalizeMessage se
            (LogMessageData.mk file ln id .FATAL_WITHOUT_ABORT err buf))).map
          (fun s => LogLine tag file ln id .FATAL_WITHOUT_ABORT s) ++ [] := by
    unfold logMessageDtor
    rw [hpass]
    simp only [Bool.true_eq_false, if_false]
    rw [if_neg hnf]
  refine ⟨?_, loggerMessages_logMessageDtor t se tag _ hpass, ?_, ?_⟩
  · rw [abortMessages_logMessageDtor t se tag _ hpass, if_neg hnf]
  · rw [hshape, List.append_nil]
    intro hmap
    have hseg := splitOnChar_ne_nil '\n'
      (finalizeMessage se (LogMessageData.mk file ln id .FATAL_WITHOUT_ABORT err buf))
    rw [← dtorSegments_eq_splitOnChar] at hseg
    exact hseg (List.map_eq_nil_iff.mp hmap)
  · intro e he
    rw [hshape, List.append_nil] at he
    obtain ⟨s, _, hes⟩ := List.mem_map.mp he
    rw [← hes]
    rfl

/-- Claim C5: scoped severity overrides follow stack discipline: the scope
object saves the threshold current at its entry and its destructor restores
exactly that value whatever the threshold became in between; in the spec's
example (WARNING, scope DEBUG, nested scope ERROR) exiting the inner scope
restores DEBUG and exiting the outer scope restores WARNING. -/
theorem c5_scoped_override_stack :
    (∀ g new g' : LogSeverity,
      ScopedLogSeverity.exitScope (ScopedLogSeverity.enter new g).1 g' = g) ∧
    (∀ g new1 new2 : LogSeverity,
      (ScopedLogSeverity.enter new1 g).2 = new1 ∧
      (ScopedLogSeverity.enter new2 (ScopedLogSeverity.enter new1 g).2).2 = new2 ∧
      ScopedLogSeverity.exitScope
          (ScopedLogSeverity.enter new2 (ScopedLogSeverity.enter new1 g).2).1
          (ScopedLogSeverity.enter new2 (ScopedLogSeverity.enter new1 g).2).2 = new1 ∧
      ScopedLogSeverity.exitScope (ScopedLogSeverity.enter new1 g).1
          (ScopedLogSeverity.exitScope
            (ScopedLogSeverity.enter new2 (ScopedLogSeverity.enter new1 g).2).1
            (ScopedLogSeverity.enter new2 (ScopedLogSeverity.enter new1 g).2).2) = g) ∧
    ScopedLogSeverity.exitScope
        (ScopedLogSeverity.enter .ERROR (ScopedLogSeverity.enter .DEBUG .WARNING).2).1
        (ScopedLogSeverity.enter .ERROR (ScopedLogSeverity.enter .DEBUG .WARNING).2).2
      = .DEBUG ∧
    ScopedLogSeverity.exitScope (ScopedLogSeverity.enter .DEBUG .WARNING).1 .DEBUG
      = .WARNING :=
  ⟨fun _ _ _ => rfl, fun _ _ _ => ⟨rfl, rfl, rfl, rfl⟩, rfl, rfl⟩

/-- Claim C9: the no-error sentinel is exactly `-1`: a record with error code
`-1` gets no errno suffix, a record with any other code gets `": " ++
strerror(code)` appended before splitting (code 0 included — see the
witness), and when the record fails the severity filter nothing is emitted at
all. -/
theorem c9_error_sentinel (t : LogSeverity) (se : Int → List Char) (tag : List Char)
    (d : LogMessageData) :
    (wouldLog d.severity t = false → logMessageDtor t se tag d = []) ∧
    (d.error = -1 → finalizeMessage se d = d.buffer) ∧
    (d.error ≠ -1 → finalizeMessage se d = d.buffer ++ ':' :: ' ' :: se d.error) ∧
    (wouldLog d.severity t = true →
      joinWith '\n' (loggerMessages (logMessageDtor t se tag d)) = finalizeMessage se d) := by
  refine ⟨?_, ?_, ?_, ?_⟩
  · intro hfail
    unfold logMessageDtor
    rw [hfail]
    simp
  · intro h
    unfold finalizeMessage
    rw [if_neg (by simp [h])]
  · intro h
    unfold finalizeMessage
    rw [if_pos h]
  · intro hpass
    rw [loggerMessages_logMessageDtor t se tag d hpass, joinWith_splitOnChar]

theorem c9_error_sentinel_witness :
    logMessageDtor .ERROR (fun _ => ['E']) []
        (LogMessageData.mk ['f'] 1 .DEFAULT .INFO 0 ['a']) = [] ∧
    finalizeMessage (fun _ => ['E']) (LogMessageData.mk ['f'] 1 .DEFAULT .INFO 0 ['a'])
      = ['a', ':', ' ', 'E'] ∧
    finalizeMessage (fun _ => ['E']) (LogMessageData.mk ['f'] 1 .DEFAULT .INFO (-1) ['a'])
      = ['a'] := by
  refine ⟨?_, ?_, ?_⟩
  · exact (c9_error_sentinel .ERROR (fun _ => ['E']) []
      (LogMessageData.mk ['f'] 1 .DEFAULT .INFO 0 ['a'])).1 (by decide)
  · rw [(c9_error_sentinel .ERROR (fun _ => ['E']) []
      (LogMessageData.mk ['f'] 1 .DEFAULT .INFO 0 ['a'])).2.2.1 (by decide)]
    rfl
  · exact (c9_error_sentinel .ERROR (fun _ => ['E']) []
      (LogMessageData.mk ['f'] 1 .DEFAULT .INFO (-1) ['a'])).2.1 rfl

/-- Unfolding `InitLogging` on a fresh (uninitialized) state with a null
`argv` and a set `ANDROID_LOG_TAGS`. -/
theorem InitLogging_fresh_none {F G : Type} (tg : List Char) (lg : F) (ab : G)
    (se : Int → List Char) (pn : List Char) (g : LogSeverity) (l0 : F) (a0 : G) :
    InitLogging none (some tg) lg ab se (LoggingState.mk false pn g l0 a0)
      = match parseEnvTags tg g with
        | .ok g2 => (LoggingState.mk true pn g2 lg ab, [])
        | .fatalError spec g2 =>
          (LoggingState.mk true pn g2 lg ab,
           logMessageDtor g2 se pn (fatalConfigRecord spec tg)) := by
  cases hp : parseEnvTags tg g <;> simp [InitLogging, hp]

/-- Claim C6: the override parser recognizes exactly the three-character
tokens `*:<X>` with `X ∈ \x7bv d i w e f s\x7d`, mapping them to VERBOSE,
DEBUG, INFO, WARNING, ERROR, FATAL_WITHOUT_ABORT, FATAL_WITHOUT_ABORT in
order of appearance (last valid token wins); any other token stops the loop
with a FATAL diagnostic naming the token and the whole override string,
whose dispatch calls the aborter. -/
theorem c6_env_override (g : LogSeverity) :
    parseEnvTags (("*:v").toList) g = .ok .VERBOSE ∧
    parseEnvTags (("*:d").toList) g = .ok .DEBUG ∧
    parseEnvTags (("*:i").toList) g = .ok .INFO ∧
    parseEnvTags (("*:w").toList) g = .ok .WARNING ∧
    parseEnvTags (("*:e").toList) g = .ok .ERROR ∧
    parseEnvTags (("*:f").toList) g = .ok .FATAL_WITHOUT_ABORT ∧
    parseEnvTags (("*:s").toList) g = .ok .FATAL_WITHOUT_ABORT ∧
    parseEnvTags (("*:q").toList) g = .fatalError (("*:q").toList) g ∧
    parseEnvTags (("foo:w").toList) g = .fatalError (("foo:w").toList) g ∧
    (∀ (toks : List (List Char)) (l : List Char) (sev : LogSeverity),
      (∀ tok ∈ toks, (applySpec tok).isSome = true) →
      toks.getLast? = some l → applySpec l = some sev →
      parseTags toks g = .ok sev) ∧
    (∀ (se : Int → List Char) (tagp spec tags : List Char),
      abortMessages (logMessageDtor g se tagp (fatalConfigRecord spec tags))
        = [aborterMessage (unsupportedSpecMsg spec tags)]) := by
  refine ⟨rfl, rfl, rfl, rfl, rfl, rfl, rfl, rfl, rfl, ?_, ?_⟩
  · intro toks l sev hv hlast hl
    rw [parseTags_all_valid toks g hv, foldl_applySpec_last toks g l sev hlast hl]
  · intro se tagp spec tags
    have hfatal : (fatalConfigRecord spec tags).severity = .FATAL := rfl
    have hpass : wouldLog (fatalConfigRecord spec tags).severity g = true := by
      rw [hfatal]
      exact (wouldLog_fatal_tiers g).1
    rw [abortMessages_logMessageDtor g se tagp _ hpass, if_pos hfatal]
    have hfin : finalizeMessage se (fatalConfigRecord spec tags)
        = unsupportedSpecMsg spec tags := by
      simp [finalizeMessage, fatalConfigRecord]
    rw [hfin]

theorem c6_env_override_witness :
    parseTags [("*:d").toList, ("*:w").toList] .INFO = .ok .WARNING ∧
    parseEnvTags (("*:s").toList) .INFO = .ok .FATAL_WITHOUT_ABORT := by
  constructor
  · exact (c6_env_override .INFO).2.2.2.2.2.2.2.2.2.1
      [("*:d").toList, ("*:w").toList] (("*:w").toList) .WARNING
      (by decide) (by decide) (by decide)
  · exact (c6_env_override .INFO).2.2.2.2.2.2.1

/-- Claim C10: each valid token overwrites the process-wide threshold
immediately, with no rollback on a later malformed token: when the loop
reaches the malformed token, the threshold carried into the fatal diagnostic
is the severity of the last valid token (the fold of the valid prefix), and
the state `InitLogging` leaves behind keeps exactly that threshold. -/
theorem c10_no_rollback (vts : List (List Char)) (bad : List Char)
    (rest : List (List Char)) (g : LogSeverity)
    (hv : ∀ tok ∈ vts, (applySpec tok).isSome = true)
    (hbad : applySpec bad = none) :
    parseTags (vts ++ bad :: rest) g
      = .fatalError bad (vts.foldl (fun acc tok => (applySpec tok).getD acc) g) ∧
    (∀ (l : List Char) (sev : LogSeverity),
      vts.getLast? = some l → applySpec l = some sev →
      parseTags (vts ++ bad :: rest) g = .fatalError bad sev) ∧
    (∀ (F G : Type) (pn : List Char) (l0 lg : F) (a0 ab : G) (se : Int → List Char),
      (∀ tok ∈ vts ++ bad :: rest, ' ' ∉ tok) →
      (InitLogging none (some (joinWith ' ' (vts ++ bad :: rest))) lg ab se
          (LoggingState.mk false pn g l0 a0)).1.threshold
        = vts.foldl (fun acc tok => (applySpec tok).getD acc) g) := by
  refine ⟨parseTags_append_invalid vts bad rest g hv hbad, ?_, ?_⟩
  · intro l sev hlast hl
    rw [parseTags_append_invalid vts bad rest g hv hbad,
      foldl_applySpec_last vts g l sev hlast hl]
  · intro F G pn l0 lg a0 ab se hfree
    have hsplit : Split (joinWith ' ' (vts ++ bad :: rest)) = vts ++ bad :: rest := by
      unfold Split
      exact splitOnChar_joinWith ' ' _ (by simp) hfree
    have hp : parseEnvTags (joinWith ' ' (vts ++ bad :: rest)) g
        = .fatalError bad (vts.foldl (fun acc tok => (applySpec tok).getD acc) g) := by
      unfold parseEnvTags
      rw [hsplit]
      exact parseTags_append_invalid vts bad rest g hv hbad
    rw [InitLogging_fresh_none, hp]

theorem c10_no_rollback_witness :
    parseTags [("*:d").toList, ("*:q").toList] .INFO
      = .fatalError (("*:q").toList) .DEBUG ∧
    (InitLogging none (some (joinWith ' ' [("*:d").toList, ("*:q").toList]))
        (1 : Nat) (2 : Nat) (fun _ => [])
        (LoggingState.mk false [] .INFO 0 0)).1.threshold = .DEBUG := by
  have h := c10_no_rollback [("*:d").toList] (("*:q").toList) [] .INFO
    (by decide) (by decide)
  exact ⟨h.1, h.2.2 Nat Nat [] 0 1 0 2 (fun _ => []) (by decide)⟩

/-- Claim C8: only the first `InitLogging` call stashes the program name and
parses the environment override — on an already-initialized state the
returned state keeps the cached name, threshold and flag untouched whatever
`argv`/environment the call passes, and no events are emitted — while every
call, first or subsequent, installs the supplied logger and aborter. -/
theorem c8_init_idempotent {F G : Type} (pn : List Char) (g : LogSeverity)
    (l0 : F) (a0 : G) (argv0 : Option (List Char)) (tags : Option (List Char))
    (lg : F) (ab : G) (se : Int → List Char) (st : LoggingState F G) :
    InitLogging argv0 tags lg ab se (LoggingState.mk true pn g l0 a0)
      = (LoggingState.mk true pn g lg ab, []) ∧
    (InitLogging argv0 tags lg ab se st).1.logger = lg ∧
    (InitLogging argv0 tags lg ab se st).1.aborter = ab := by
  refine ⟨rfl, ?_⟩
  obtain ⟨b, pn2, g2, l2, a2⟩ := st
  cases b with
  | true => exact ⟨rfl, rfl⟩
  | false =>
    cases argv0 with
    | none =>
      cases tags with
      | none => exact ⟨rfl, rfl⟩
      | some tg =>
        cases hp : parseEnvTags tg g2 <;> simp [InitLogging, hp]
    | some a =>
      cases tags with
      | none => exact ⟨rfl, rfl⟩
      | some tg =>
        cases hp : parseEnvTags tg g2 <;> simp [InitLogging, hp]

set_option maxRecDepth 100000

/-- Claim C7 counterexample: with a 1100-character tag, even the replacement
"message too long" notice exceeds the 1024-byte buffer, and the length the
code hands to `writev` (`iov_len`, the second component) exceeds the buffer
size — the write covers more than the 1024-byte `buf`. -/
theorem c7_kernel_overrun_cex :
    1024 < (KernelLogger .INFO (List.replicate 1100 'a') []).2 := by
  decide

/-- Claim C7 (amended): a message whose formatted form exceeds 1024 bytes is
replaced by the "message too long" notice stating the original size, and the
channel still receives bytes; the write length never exceeds the 1024-byte
buffer provided the notice itself (whose length includes the tag) fits in
the buffer — with an oversized tag the untruncated notice length is used as
`iov_len` and can exceed the buffer. -/
theorem c7_kernel_truncation (sev : LogSeverity) (tag msg : List Char) :
    ((kernelFormat (kLogSeverityToKernelLogLevel sev) tag msg).length ≤ 1024 →
      (KernelLogger sev tag msg).2
        = (kernelFormat (kLogSeverityToKernelLogLevel sev) tag msg).length) ∧
    (1024 < (kernelFormat (kLogSeverityToKernelLogLevel sev) tag msg).length →
      (KernelLogger sev tag msg).2
        = (kernelTooLong (kLogSeverityToKernelLogLevel sev) tag
            (kernelFormat (kLogSeverityToKernelLogLevel sev) tag msg).length).length ∧
      (KernelLogger sev tag msg).1
        = (snprintfBuf (kernelTooLong (kLogSeverityToKernelLogLevel sev) tag
            (kernelFormat (kLogSeverityToKernelLogLevel sev) tag msg).length)).take
              (kernelTooLong (kLogSeverityToKernelLogLevel sev) tag
                (kernelFormat (kLogSeverityToKernelLogLevel sev) tag msg).length).length ∧
      (KernelLogger sev tag msg).1 ≠ []) ∧
    ((kernelTooLong (kLogSeverityToKernelLogLevel sev) tag
        (kernelFormat (kLogSeverityToKernelLogLevel sev) tag msg).length).length ≤ 1024 →
      (KernelLogger sev tag msg).2 ≤ 1024) := by
  refine ⟨?_, ?_, ?_⟩
  · intro h
    unfold KernelLogger
    rw [if_neg (not_lt.mpr h)]
  · intro h
    unfold KernelLogger
    rw [if_pos h]
    refine ⟨rfl, rfl, ?_⟩
    intro hemp
    rcases List.take_eq_nil_iff.mp hemp with h0 | h0
    · have hpos : (kernelTooLong (kLogSeverityToKernelLogLevel sev) tag
          (kernelFormat (kLogSeverityToKernelLogLevel sev) tag msg).length) ≠ [] := by
        simp [kernelTooLong]
      exact hpos (List.length_eq_zero.mp h0)
    · have : (snprintfBuf (kernelTooLong (kLogSeverityToKernelLogLevel sev) tag
          (kernelFormat (kLogSeverityToKernelLogLevel sev) tag msg).length)) ≠ [] := by
        simp [snprintfBuf]
      exact this h0
  · intro h
    unfold KernelLogger
    by_cases hbig : 1024 < (kernelFormat (kLogSeverityToKernelLogLevel sev) tag msg).length
    · rw [if_pos hbig]
      exact h
    · rw [if_neg hbig]
      exact not_lt.mp hbig

theorem c7_kernel_truncation_witness :
    (KernelLogger .INFO ['t'] ['m']).2 = 8 ∧
    (KernelLogger .INFO ['t'] (List.replicate 1100 'a')).2
      = (kernelTooLong 6 ['t'] 1107).length ∧
    (KernelLogger .INFO ['t'] (List.replicate 1100 'a')).2 ≤ 1024 := by
  refine ⟨?_, ?_, ?_⟩
  · rw [(c7_kernel_truncation .INFO ['t'] ['m']).1 (by decide)]
    decide
  · have h := ((c7_kernel_truncation .INFO ['t'] (List.replicate 1100 'a')).2.1
      (by decide)).1
    rw [h]
    decide
  · exact (c7_kernel_truncation .INFO ['t'] (List.replicate 1100 'a')).2.2 (by decide)

end AndroidLogging
